/-
Verification of the active-learning sampling controller from
`review_classification_with_active_learning_.ipynb`
(repository PudiAbhiramReddy/Projects_AI).

The notebook is a linear script.  We embed the parts relevant to the
claims:

* the module-level stratified split of the corpus into validation /
  test / train / per-class pools (cell-7), where Python slicing
  `l[a:b]` is embedded as `(l.drop a).take (b - a)`;
* the ratio computation, sample-count computation, pool draw
  (`Dataset.take` / `Dataset.skip`) and train-set concatenation inside
  `train_active_learning_models` (cell-17);
* the checkpoint / reload mechanics of `train_active_learning_models`:
  a `ModelCheckpoint("AL_Model.h5", save_best_only=True)` callback
  object shared by every `fit` call (it keeps its running best across
  calls), and `model = keras.models.load_model("AL_Model.h5")` executed
  at the end of every loop iteration.

Python `float` arithmetic is idealised as `ℚ`; `int(x)` on a
non-negative value is `⌊x⌋`.
-/
import Mathlib

namespace ActiveLearning

/-! ## Data split (cell-7, module level)

`x_positives`/`x_negatives` are the two class-separated sequences.
The script slices each class sequence in order:
`[:val_split]`, `[val_split : val_split+test_split]`,
`[val_split+test_split : val_split+test_split+train_split]`,
`[val_split+test_split+train_split:]`,
and concatenates the positive part before the negative part for the
validation, test and train sets. -/

structure Splits (α : Type*) where
  x_val : List α
  x_test : List α
  x_train : List α
  pool_positives : List α
  pool_negatives : List α

/-- Embedding of the module-level split code of cell-7.  `pos` and `neg`
are `x_positives` and `x_negatives`; Python slice `l[a:b]` is
`(l.drop a).take (b - a)` and `l[a:]` is `l.drop a`. -/
def makeSplits {α : Type*} (pos neg : List α)
    (val_split test_split train_split : ℕ) : Splits α :=
  { x_val := pos.take val_split ++ neg.take val_split
    x_test := (pos.drop val_split).take test_split
        ++ (neg.drop val_split).take test_split
    x_train := (pos.drop (val_split + test_split)).take train_split
        ++ (neg.drop (val_split + test_split)).take train_split
    pool_positives := pos.drop (val_split + test_split + train_split)
    pool_negatives := neg.drop (val_split + test_split + train_split) }

/-! ## Ratio computation (cell-17)

```
if false_negatives != 0 and false_positives != 0:
    total = false_negatives + false_positives
    sample_ratio_ones, sample_ratio_zeros = (
        false_positives / total, false_negatives / total)
else:
    sample_ratio_ones, sample_ratio_zeros = 0.5, 0.5
```
-/

/-- `(sample_ratio_ones, sample_ratio_zeros)` as computed in cell-17. -/
def sampleRatios (false_negatives false_positives : ℕ) : ℚ × ℚ :=
  if false_negatives ≠ 0 ∧ false_positives ≠ 0 then
    ((false_positives : ℚ) / ((false_negatives : ℚ) + (false_positives : ℚ)),
     (false_negatives : ℚ) / ((false_negatives : ℚ) + (false_positives : ℚ)))
  else
    (1/2, 1/2)

/-- `int(ratio * sampling_size)`: Python `int` truncates toward zero,
which on the non-negative ratios of this script is the floor. -/
def sampleCount (ratio : ℚ) (sampling_size : ℕ) : ℕ :=
  (Int.floor (ratio * (sampling_size : ℚ))).toNat

/-! ## Pool draw and the SAMPLE step (cell-17)

`pool.take(k)` returns the first `k` elements (all of them when fewer
remain), `pool.skip(k)` drops them; `take`/`skip` on a
`tf.data.Dataset` never raise. -/

/-- `draw pool k` = (`pool.take(k)`, `pool.skip(k)`). -/
def draw {α : Type*} (pool : List α) (k : ℕ) : List α × List α :=
  (pool.take k, pool.drop k)

/-- Mutable state of the loop body of `train_active_learning_models`:
the growing train set, the two pools, and the (never reassigned)
validation and test sets. -/
structure LoopState (α : Type*) where
  train_dataset : List α
  pool_positives : List α
  pool_negatives : List α
  val_dataset : List α
  test_dataset : List α

/-- One SAMPLE step of the loop body of cell-17, driven by the
`false_negatives`/`false_positives` counts returned by
`model.evaluate`:

```
sampled_dataset = pool_negatives.take(int(sample_ratio_zeros * sampling_size))
    .concatenate(pool_positives.take(int(sample_ratio_ones * sampling_size)))
pool_negatives = pool_negatives.skip(int(sample_ratio_zeros * sampling_size))
pool_positives = pool_positives.skip(int(sample_ratio_ones * sampling_size))
train_dataset = train_dataset.concatenate(sampled_dataset)
``` -/
def sampleStep {α : Type*} (st : LoopState α)
    (false_negatives false_positives sampling_size : ℕ) : LoopState α :=
  let r := sampleRatios false_negatives false_positives
  let k_ones := sampleCount r.1 sampling_size
  let k_zeros := sampleCount r.2 sampling_size
  let sampled_dataset :=
    (draw st.pool_negatives k_zeros).1 ++ (draw st.pool_positives k_ones).1
  { st with
    train_dataset := st.train_dataset ++ sampled_dataset
    pool_negatives := (draw st.pool_negatives k_zeros).2
    pool_positives := (draw st.pool_positives k_ones).2 }

/-- Iterating the SAMPLE step over the per-round evaluation counts
`(fn, fp)` of a whole run. -/
def runRounds {α : Type*} (st : LoopState α) (sampling_size : ℕ)
    (counts : List (ℕ × ℕ)) : LoopState α :=
  counts.foldl (fun s c => sampleStep s c.1 c.2 sampling_size) st

/-- Iterated draws from a single reservoir: the list of returned
batches together with the final reservoir. -/
def drawRun {α : Type*} (pool : List α) : List ℕ → List (List α) × List α
  | [] => ([], pool)
  | k :: ks =>
    let d := draw pool k
    let rest := drawRun d.2 ks
    (d.1 :: rest.1, rest.2)

/-! ## The loop's console output (cell-17)

Each loop iteration prints, in order:
```
print("-" * 100)
print(f"Number of zeros incorrectly classified: {false_negatives}, Number of ones incorrectly classified: {false_positives}")
print(f"Sample ratio for positives: {sample_ratio_ones}, Sample ratio for negatives:{sample_ratio_zeros}")
print(f"Starting training with {len(train_dataset)} samples")
print("-" * 100)
```
There is no print statement conditioned on the pools' remaining sizes. -/

/-- One message printed by the loop body; each constructor is one of
the `print` statements of cell-17 with its interpolated data. -/
inductive LogMsg where
  | separator : LogMsg
  | incorrectCounts : ℕ → ℕ → LogMsg
  | sampleRatioLine : ℚ → ℚ → LogMsg
  | startingTraining : ℕ → LogMsg
  deriving DecidableEq, Repr

/-- The SAMPLE step together with the messages it prints, in program
order. -/
def sampleStepLogged {α : Type*} (st : LoopState α)
    (false_negatives false_positives sampling_size : ℕ) :
    LoopState α × List LogMsg :=
  let r := sampleRatios false_negatives false_positives
  let st' := sampleStep st false_negatives false_positives sampling_size
  (st',
   [LogMsg.separator,
    LogMsg.incorrectCounts false_negatives false_positives,
    LogMsg.sampleRatioLine r.1 r.2,
    LogMsg.startingTraining st'.train_dataset.length,
    LogMsg.separator])

/-! ## Checkpointing and reloading (cell-17)

The classifier is opaque; a run is driven by the per-epoch outcomes of
each `fit` call.  An `Epoch` records the parameter state at the end of
that epoch together with its validation loss.

`checkpoint = ModelCheckpoint("AL_Model.h5", save_best_only=True)` is
created once and passed to every `fit` call; Keras's `ModelCheckpoint`
keeps its running best (`self.best`, initially infinity) on the
callback object, so the file always holds the parameters of the first
epoch achieving the strictly smallest validation loss seen so far over
all calls.  After `fit`, the live model holds the last epoch's
parameters (`EarlyStopping` is used without weight restoration).  At
the end of every loop iteration the script runs
`model = keras.models.load_model("AL_Model.h5")`. -/

structure Epoch (P : Type*) where
  params : P
  val_loss : ℚ

/-- The checkpoint slot: running best validation loss (`none` =
infinity, nothing saved yet) and the saved parameters. -/
structure Ckpt (P : Type*) where
  best : Option ℚ
  saved : Option P

/-- `ModelCheckpoint(save_best_only=True)` at the end of one epoch:
save iff the monitored `val_loss` strictly improves on the running
best. -/
def ckptStep {P : Type*} (c : Ckpt P) (e : Epoch P) : Ckpt P :=
  match c.best with
  | none => ⟨some e.val_loss, some e.params⟩
  | some b => if e.val_loss < b then ⟨some e.val_loss, some e.params⟩ else c

/-- The checkpoint slot after one `fit` call whose epochs are
`epochs`, starting from slot `c` (the callback object is shared across
calls, so `c` carries over). -/
def runFit {P : Type*} (c : Ckpt P) (epochs : List (Epoch P)) : Ckpt P :=
  epochs.foldl ckptStep c

/-- The live in-memory parameters after a `fit` call: the last epoch's
parameters (or the pre-call parameters if the call ran no epoch). -/
def lastParams {P : Type*} (pre : P) (epochs : List (Epoch P)) : P :=
  (epochs.getLast?.map Epoch.params).getD pre

/-- Live model parameters plus the shared checkpoint slot. -/
structure ALState (P : Type*) where
  model : P
  ckpt : Ckpt P

/-- One loop iteration of `train_active_learning_models`, as far as
parameters are concerned: `model.fit(...)` (epochs given by the
schedule `epochs`, checkpoint callback shared), then
`model = keras.models.load_model("AL_Model.h5")`. -/
def roundStep {P : Type*} (st : ALState P) (epochs : List (Epoch P)) :
    ALState P :=
  let c := runFit st.ckpt epochs
  { model := c.saved.getD (lastParams st.model epochs), ckpt := c }

/-- The whole of `train_active_learning_models`, parameter-wise:
initial `fit` (no reload afterwards), then `num_iterations` loop
iterations, each ending in `load_model`.  `init` is the freshly
created model's parameters, `initEpochs` the initial fit's epochs and
`rounds` the loop iterations' epoch schedules. -/
def runAL {P : Type*} (init : P) (initEpochs : List (Epoch P))
    (rounds : List (List (Epoch P))) : ALState P :=
  rounds.foldl roundStep
    { model := lastParams init initEpochs
      ckpt := runFit ⟨none, none⟩ initEpochs }

/-! ## Helper lemmas -/

theorem sampleRatios_nonneg (fn fp : ℕ) :
    0 ≤ (sampleRatios fn fp).1 ∧ 0 ≤ (sampleRatios fn fp).2 := by
  unfold sampleRatios
  split <;> constructor <;> positivity

theorem sampleRatios_add (fn fp : ℕ) :
    (sampleRatios fn fp).1 + (sampleRatios fn fp).2 = 1 := by
  unfold sampleRatios
  split
  · rename_i h
    have hfn : (0 : ℚ) < (fn : ℚ) := by
      exact_mod_cast Nat.pos_of_ne_zero h.1
    have hden : ((fn : ℚ) + (fp : ℚ)) ≠ 0 := by positivity
    field_simp
    ring
  · norm_num

/-! ## C1: ratio computation -/

/-- C1.  Ratio computation of the sampling controller: whenever both
error counts are non-zero, `sample_ratio_ones = fp / (fp + fn)` and
`sample_ratio_zeros = fn / (fp + fn)` (the positive-class share tracks
the false positives, e.g. `fn = 30, fp = 70` gives ratios `0.7 / 0.3`);
whenever either count is zero, both ratios are `0.5` (e.g.
`fn = 0, fp = 12`). -/
theorem sampleRatios_cross_assignment (fn fp : ℕ) :
    (fn ≠ 0 → fp ≠ 0 →
      sampleRatios fn fp
        = ((fp : ℚ) / ((fp : ℚ) + (fn : ℚ)),
           (fn : ℚ) / ((fp : ℚ) + (fn : ℚ))))
    ∧ (fn = 0 ∨ fp = 0 → sampleRatios fn fp = (1/2, 1/2))
    ∧ sampleRatios 30 70 = (7/10, 3/10)
    ∧ sampleRatios 0 12 = (1/2, 1/2) := by
  refine ⟨fun h1 h2 => ?_, fun h => ?_, ?_, ?_⟩
  · unfold sampleRatios
    rw [if_pos ⟨h1, h2⟩, add_comm ((fn : ℚ)) ((fp : ℚ))]
  · unfold sampleRatios
    rw [if_neg]
    rcases h with h | h <;> simp [h]
  · norm_num [sampleRatios]
  · norm_num [sampleRatios]

/-- Closed instance of `sampleRatios_cross_assignment`: the
hypotheses of its first conjunct discharged at `fn = 30`, `fp = 70`. -/
theorem sampleRatios_cross_assignment_witness :
    sampleRatios 30 70 = ((70 : ℚ) / ((70 : ℚ) + (30 : ℚ)),
      (30 : ℚ) / ((70 : ℚ) + (30 : ℚ))) :=
  (sampleRatios_cross_assignment 30 70).1 (by norm_num) (by norm_num)

/-! ## C8: floor, not rounding -/

/-- C8.  Sample-count arithmetic uses the floor: for every non-negative
ratio `r` and every `sampling_size`, `sampleCount r S = ⌊r * S⌋`; in
particular `sampling_size = 5000` with ratio `0.7` yields `3500`, and
ratio `5/6` yields `4166` (the floor, where rounding would give
`4167`). -/
theorem sampleCount_is_floor (r : ℚ) (S : ℕ) (hr : 0 ≤ r) :
    ((sampleCount r S : ℤ) = Int.floor (r * (S : ℚ)))
    ∧ sampleCount (7/10) 5000 = 3500
    ∧ sampleCount (5/6) 5000 = 4166 := by
  refine ⟨?_, ?_, ?_⟩
  · have h0 : (0 : ℤ) ≤ Int.floor (r * (S : ℚ)) := by
      apply Int.floor_nonneg.mpr
      positivity
    unfold sampleCount
    exact Int.toNat_of_nonneg h0
  · unfold sampleCount
    norm_num
    rfl
  · unfold sampleCount
    norm_num
    rfl

/-- Closed instance of `sampleCount_is_floor` at `r = 7/10`,
`S = 5000`. -/
theorem sampleCount_is_floor_witness :
    (sampleCount (7/10) 5000 : ℤ) = Int.floor ((7/10 : ℚ) * (5000 : ℚ)) :=
  (sampleCount_is_floor (7/10) 5000 (by norm_num)).1

/-! ## C10: the two requests almost exhaust the sampling size -/

/-- C10.  In both branches the two ratios sum exactly to `1`, so the
total number of examples requested from the two reservoirs,
`⌊ratio_ones * S⌋ + ⌊ratio_zeros * S⌋`, is at most `S` and at least
`S - 1`. -/
theorem sampleCounts_almost_exhaust (fn fp S : ℕ) :
    (sampleRatios fn fp).1 + (sampleRatios fn fp).2 = 1
    ∧ sampleCount (sampleRatios fn fp).1 S
        + sampleCount (sampleRatios fn fp).2 S ≤ S
    ∧ S ≤ sampleCount (sampleRatios fn fp).1 S
        + sampleCount (sampleRatios fn fp).2 S + 1 := by
  obtain ⟨h1, h2⟩ := sampleRatios_nonneg fn fp
  have hadd := sampleRatios_add fn fp
  set r1 := (sampleRatios fn fp).1 with hr1
  set r2 := (sampleRatios fn fp).2 with hr2
  have hsum : r1 * (S : ℚ) + r2 * (S : ℚ) = (S : ℚ) := by
    rw [← add_mul, hadd, one_mul]
  have ha : (0 : ℤ) ≤ Int.floor (r1 * (S : ℚ)) :=
    Int.floor_nonneg.mpr (by positivity)
  have hb : (0 : ℤ) ≤ Int.floor (r2 * (S : ℚ)) :=
    Int.floor_nonneg.mpr (by positivity)
  have hub : Int.floor (r1 * (S : ℚ)) + Int.floor (r2 * (S : ℚ)) ≤ (S : ℤ) := by
    have := Int.floor_le (r1 * (S : ℚ))
    have := Int.floor_le (r2 * (S : ℚ))
    have hcast : ((Int.floor (r1 * (S : ℚ)) + Int.floor (r2 * (S : ℚ)) : ℤ) : ℚ)
        ≤ (S : ℚ) := by
      push_cast
      linarith
    exact_mod_cast hcast
  have hlb : (S : ℤ) ≤ Int.floor (r1 * (S : ℚ)) + Int.floor (r2 * (S : ℚ)) + 1 := by
    have hl1 := Int.lt_floor_add_one (r1 * (S : ℚ))
    have hl2 := Int.lt_floor_add_one (r2 * (S : ℚ))
    have hcast : (S : ℚ)
        < ((Int.floor (r1 * (S : ℚ)) + Int.floor (r2 * (S : ℚ)) + 2 : ℤ) : ℚ) := by
      push_cast
      linarith
    have : (S : ℤ) < Int.floor (r1 * (S : ℚ)) + Int.floor (r2 * (S : ℚ)) + 2 := by
      exact_mod_cast hcast
    omega
  refine ⟨hadd, ?_, ?_⟩ <;> unfold sampleCount <;> omega

/-! ## C5: the draw contract -/

theorem drawRun_flatten_append {α : Type*} (ks : List ℕ) (pool : List α) :
    (drawRun pool ks).1.flatten ++ (drawRun pool ks).2 = pool := by
  induction ks generalizing pool with
  | nil => simp [drawRun]
  | cons k ks ih =>
    simp only [drawRun, draw, List.flatten_cons, List.append_assoc, ih]
    exact List.take_append_drop k pool

/-- C5.  Draw contract: with `k ≤ available`, `draw` removes and
returns exactly the first `k` examples in their original order and the
reservoir shrinks by exactly `k`; over a whole run of draws the
returned batches and the final reservoir reassemble the original
reservoir, and (for a duplicate-free reservoir) no example is returned
twice or left in the reservoir after being returned. -/
theorem draw_fifo_contract {α : Type*} (pool : List α) (k : ℕ) (ks : List ℕ)
    (hk : k ≤ pool.length) (hnd : pool.Nodup) :
    (draw pool k).1 = pool.take k
    ∧ (draw pool k).1.length = k
    ∧ (draw pool k).1 ++ (draw pool k).2 = pool
    ∧ (draw pool k).2.length = pool.length - k
    ∧ (drawRun pool ks).1.flatten ++ (drawRun pool ks).2 = pool
    ∧ (drawRun pool ks).1.Pairwise List.Disjoint
    ∧ ∀ b ∈ (drawRun pool ks).1, List.Disjoint b (drawRun pool ks).2 := by
  have hflat := drawRun_flatten_append ks pool
  have hnd' : ((drawRun pool ks).1.flatten ++ (drawRun pool ks).2).Nodup := by
    rw [hflat]; exact hnd
  have hpair : (drawRun pool ks).1.Pairwise List.Disjoint :=
    (List.nodup_flatten.mp (List.nodup_append.mp hnd').1).2
  have hdisj : List.Disjoint (drawRun pool ks).1.flatten (drawRun pool ks).2 :=
    List.disjoint_of_nodup_append hnd'
  refine ⟨rfl, ?_, List.take_append_drop k pool, List.length_drop k pool,
    hflat, hpair, fun b hb => ?_⟩
  · simpa [draw] using hk
  · exact fun a ha => hdisj (List.mem_flatten.mpr ⟨b, hb, ha⟩)

/-- Closed instance of `draw_fifo_contract` on the reservoir
`[0, 1, 2, 3, 4]` with `k = 2` and run `[1, 2, 4]`. -/
theorem draw_fifo_contract_witness :
    (draw [0, 1, 2, 3, 4] 2).1 ++ (draw [0, 1, 2, 3, 4] 2).2 = [0, 1, 2, 3, 4]
    ∧ (drawRun [0, 1, 2, 3, 4] [1, 2, 4]).1.Pairwise List.Disjoint :=
  ⟨(draw_fifo_contract [0, 1, 2, 3, 4] 2 [1, 2, 4] (by decide) (by decide)).2.2.1,
   (draw_fifo_contract [0, 1, 2, 3, 4] 2 [1, 2, 4] (by decide)
     (by decide)).2.2.2.2.2.1⟩

/-! ## C6: train-set growth -/

theorem runRounds_preserves {α : Type*} (S : ℕ) (rounds : List (ℕ × ℕ))
    (st : LoopState α) :
    (runRounds st S rounds).val_dataset = st.val_dataset
    ∧ (runRounds st S rounds).test_dataset = st.test_dataset
    ∧ st.train_dataset.length ≤ (runRounds st S rounds).train_dataset.length := by
  induction rounds generalizing st with
  | nil => exact ⟨rfl, rfl, le_refl _⟩
  | cons c cs ih =>
    obtain ⟨h1, h2, h3⟩ := ih (sampleStep st c.1 c.2 S)
    refine ⟨h1, h2, le_trans ?_ h3⟩
    simp [sampleStep, runRounds]

/-- C6.  Train-set growth: when both requested counts are available,
the train set after one SAMPLE step has exactly
`|train| + k_ones + k_zeros` elements; across any sequence of rounds
the train-set size never decreases, and the validation and test sets
are never modified. -/
theorem train_growth {α : Type*} (st : LoopState α) (fn fp S : ℕ)
    (rounds : List (ℕ × ℕ))
    (hpos : sampleCount (sampleRatios fn fp).1 S ≤ st.pool_positives.length)
    (hneg : sampleCount (sampleRatios fn fp).2 S ≤ st.pool_negatives.length) :
    (sampleStep st fn fp S).train_dataset.length
      = st.train_dataset.length
        + sampleCount (sampleRatios fn fp).1 S
        + sampleCount (sampleRatios fn fp).2 S
    ∧ st.train_dataset.length ≤ (runRounds st S rounds).train_dataset.length
    ∧ (runRounds st S rounds).val_dataset = st.val_dataset
    ∧ (runRounds st S rounds).test_dataset = st.test_dataset := by
  obtain ⟨h1, h2, h3⟩ := runRounds_preserves S rounds st
  refine ⟨?_, h3, h1, h2⟩
  simp only [sampleStep, draw, List.length_append, List.length_take]
  omega

/-- Closed instance of `train_growth`: one example per class requested
(`fn = fp = 1`, so both ratios are `1/2` and both counts are `2` for
`sampling_size = 4`), pools of five examples each. -/
theorem train_growth_witness :
    (sampleStep
      (⟨[0], [1, 2, 3, 4, 5], [6, 7, 8, 9, 10], [11], [12]⟩ : LoopState ℕ)
      1 1 4).train_dataset.length
      = 1 + sampleCount (sampleRatios 1 1).1 4 + sampleCount (sampleRatios 1 1).2 4 :=
  (train_growth (⟨[0], [1, 2, 3, 4, 5], [6, 7, 8, 9, 10], [11], [12]⟩ : LoopState ℕ)
    1 1 4 [(1, 1)]
    (by norm_num [sampleRatios, sampleCount])
    (by norm_num [sampleRatios, sampleCount])).1

/-! ## C7: reservoir exhaustion -/

/-- Counterexample to "the controller logs the discrepancy": two
concrete loop states with the same evaluation counts `fn = fp = 1`
(both requested counts are `2` at `sampling_size = 4`), the first with
ample pools (no shortfall), the second with single-element pools (the
positive draw returns `1 < 2` examples).  Both iterations print the
identical message sequence, so the printed output cannot record the
shortfall. -/
theorem exhaustion_not_logged :
    (sampleStepLogged
        (⟨[0, 1, 2, 3, 4, 5, 6, 7, 8, 9], [20, 21], [30, 31], [], []⟩ :
          LoopState ℕ) 1 1 4).2
      = (sampleStepLogged
          (⟨[0, 1, 2, 3, 4, 5, 6, 7, 8, 9, 10, 11], [20], [30], [], []⟩ :
            LoopState ℕ) 1 1 4).2
    ∧ ([20] : List ℕ).length < sampleCount (sampleRatios 1 1).1 4
    ∧ (draw ([20] : List ℕ) (sampleCount (sampleRatios 1 1).1 4)).1.length
        < sampleCount (sampleRatios 1 1).1 4
    ∧ sampleCount (sampleRatios 1 1).1 4 ≤ ([20, 21] : List ℕ).length := by
  have hr : sampleRatios 1 1 = (1/2, 1/2) := by norm_num [sampleRatios]
  have hc : sampleCount ((2 : ℚ)⁻¹) 4 = 2 := by
    unfold sampleCount
    norm_num
    rfl
  refine ⟨?_, ?_, ?_, ?_⟩ <;>
    simp [sampleStepLogged, sampleStep, draw, hr, hc]

/-- C7 (amended).  Reservoir exhaustion degrades gracefully: a draw
requesting more than remains for a class returns every remaining
example of that class (in order) and leaves that class's reservoir
empty; the step always completes, appending exactly what was drawn to
the train set (the loop continues — but no message the iteration
prints records the shortfall, see `exhaustion_not_logged`). -/
theorem exhaustion_graceful {α : Type*} (st : LoopState α) (fn fp S : ℕ) :
    (st.pool_positives.length ≤ sampleCount (sampleRatios fn fp).1 S →
      (sampleStep st fn fp S).pool_positives = []
      ∧ (draw st.pool_positives (sampleCount (sampleRatios fn fp).1 S)).1
          = st.pool_positives)
    ∧ (st.pool_negatives.length ≤ sampleCount (sampleRatios fn fp).2 S →
      (sampleStep st fn fp S).pool_negatives = []
      ∧ (draw st.pool_negatives (sampleCount (sampleRatios fn fp).2 S)).1
          = st.pool_negatives)
    ∧ (sampleStep st fn fp S).train_dataset
        = st.train_dataset
          ++ ((draw st.pool_negatives (sampleCount (sampleRatios fn fp).2 S)).1
            ++ (draw st.pool_positives (sampleCount (sampleRatios fn fp).1 S)).1) := by
  refine ⟨fun h => ⟨?_, ?_⟩, fun h => ⟨?_, ?_⟩, rfl⟩
  · simpa [sampleStep, draw] using List.drop_eq_nil_of_le h
  · simpa [draw] using List.take_of_length_le h
  · simpa [sampleStep, draw] using List.drop_eq_nil_of_le h
  · simpa [draw] using List.take_of_length_le h

/-- Closed instance of `exhaustion_graceful` on single-element pools
with both requested counts equal to `2`. -/
theorem exhaustion_graceful_witness :
    (sampleStep (⟨[0], [20], [30], [], []⟩ : LoopState ℕ) 1 1 4).pool_positives
      = [] :=
  ((exhaustion_graceful (⟨[0], [20], [30], [], []⟩ : LoopState ℕ) 1 1 4).1
    (by norm_num [sampleRatios, sampleCount])).1

/-! ## C4 / C9: the module-level split -/

theorem slice_decomp {α : Type*} (l : List α) (a b c : ℕ) :
    l.take a ++ ((l.drop a).take b ++ ((l.drop (a + b)).take c
      ++ l.drop (a + b + c))) = l := by
  have h2 : (l.drop a).drop b = l.drop (a + b) := by
    rw [List.drop_drop]
  have h3 : (l.drop (a + b)).drop c = l.drop (a + b + c) := by
    rw [List.drop_drop]
  rw [← h3, List.take_append_drop, ← h2, List.take_append_drop,
    List.take_append_drop]

/-- Counterexample to "construction fails immediately with a
ConfigurationError": the positive class here has only `2 < 1 + 1 + 1`
examples, yet the split code (plain slicing, no size check, no raise)
still produces a value — the train set silently holds a single
(negative) example and the positive reservoir is empty. -/
theorem undersized_split_does_not_fail :
    makeSplits [0, 1] [10, 11, 12] 1 1 1
      = ⟨[0, 10], [1, 11], [12], [], []⟩
    ∧ (makeSplits [0, 1] [10, 11, 12] 1 1 1).x_train.length < 1 + 1
    ∧ ([0, 1] : List ℕ).length < 1 + 1 + 1 :=
  ⟨rfl, by decide, by decide⟩

/-- C4 (amended).  The split is a total computation with no size
check: when a class has fewer than `Nv + Nt + Ntr` examples its slices
silently truncate — the three labeled slices exhaust that class in
order and its reservoir comes out empty — instead of failing. -/
theorem undersized_split_truncates {α : Type*} (pos neg : List α)
    (Nv Nt Ntr : ℕ) (h : pos.length ≤ Nv + Nt + Ntr) :
    (makeSplits pos neg Nv Nt Ntr).pool_positives = []
    ∧ pos.take Nv ++ ((pos.drop Nv).take Nt
        ++ (pos.drop (Nv + Nt)).take Ntr) = pos := by
  have hpool : (makeSplits pos neg Nv Nt Ntr).pool_positives = [] :=
    List.drop_eq_nil_of_le h
  refine ⟨hpool, ?_⟩
  have hd := slice_decomp pos Nv Nt Ntr
  rw [show pos.drop (Nv + Nt + Ntr) = [] from List.drop_eq_nil_of_le h,
    List.append_nil] at hd
  exact hd

/-- Closed instance of `undersized_split_truncates` at the corpus of
`undersized_split_does_not_fail`. -/
theorem undersized_split_truncates_witness :
    (makeSplits [0, 1] [10, 11, 12] 1 1 1).pool_positives = ([] : List ℕ) :=
  (undersized_split_truncates [0, 1] [10, 11, 12] 1 1 1 (by decide)).1

/-- C9.  Initial partition: on a class-balanced, duplicate-free corpus
with at least `Nv + Nt + Ntr` examples per class, the construction
yields validation, test and train sets of sizes `2Nv`, `2Nt`, `2Ntr`;
per class, the first `Nv` examples go to validation, the next `Nt` to
test, the next `Ntr` to train, and the remainder — in the original
order — to that class's reservoir (the four slices reassemble the
class sequence); and the five resulting sets are pairwise disjoint. -/
theorem makeSplits_partition {α : Type*} (pos neg : List α) (Nv Nt Ntr : ℕ)
    (hbal : pos.length = neg.length) (hnd : (pos ++ neg).Nodup)
    (hsz : Nv + Nt + Ntr ≤ pos.length) :
    (makeSplits pos neg Nv Nt Ntr).x_val.length = 2 * Nv
    ∧ (makeSplits pos neg Nv Nt Ntr).x_test.length = 2 * Nt
    ∧ (makeSplits pos neg Nv Nt Ntr).x_train.length = 2 * Ntr
    ∧ pos.take Nv ++ ((pos.drop Nv).take Nt ++ ((pos.drop (Nv + Nt)).take Ntr
        ++ (makeSplits pos neg Nv Nt Ntr).pool_positives)) = pos
    ∧ neg.take Nv ++ ((neg.drop Nv).take Nt ++ ((neg.drop (Nv + Nt)).take Ntr
        ++ (makeSplits pos neg Nv Nt Ntr).pool_negatives)) = neg
    ∧ List.Pairwise List.Disjoint
        [(makeSplits pos neg Nv Nt Ntr).x_val,
         (makeSplits pos neg Nv Nt Ntr).x_test,
         (makeSplits pos neg Nv Nt Ntr).x_train,
         (makeSplits pos neg Nv Nt Ntr).pool_positives,
         (makeSplits pos neg Nv Nt Ntr).pool_negatives] := by
  have hperm : List.Perm
      ((makeSplits pos neg Nv Nt Ntr).x_val
        ++ ((makeSplits pos neg Nv Nt Ntr).x_test
          ++ ((makeSplits pos neg Nv Nt Ntr).x_train
            ++ ((makeSplits pos neg Nv Nt Ntr).pool_positives
              ++ (makeSplits pos neg Nv Nt Ntr).pool_negatives))))
      (pos ++ neg) := by
    rw [← Multiset.coe_eq_coe]
    conv_rhs => rw [← slice_decomp pos Nv Nt Ntr, ← slice_decomp neg Nv Nt Ntr]
    simp only [makeSplits, ← Multiset.coe_add]
    abel
  have hndBig := hperm.symm.nodup hnd
  have hfl : [(makeSplits pos neg Nv Nt Ntr).x_val,
      (makeSplits pos neg Nv Nt Ntr).x_test,
      (makeSplits pos neg Nv Nt Ntr).x_train,
      (makeSplits pos neg Nv Nt Ntr).pool_positives,
      (makeSplits pos neg Nv Nt Ntr).pool_negatives].flatten
      = (makeSplits pos neg Nv Nt Ntr).x_val
        ++ ((makeSplits pos neg Nv Nt Ntr).x_test
          ++ ((makeSplits pos neg Nv Nt Ntr).x_train
            ++ ((makeSplits pos neg Nv Nt Ntr).pool_positives
              ++ (makeSplits pos neg Nv Nt Ntr).pool_negatives))) := by
    simp
  refine ⟨?_, ?_, ?_, slice_decomp pos Nv Nt Ntr, slice_decomp neg Nv Nt Ntr,
    (List.nodup_flatten.mp (hfl ▸ hndBig)).2⟩ <;>
    simp only [makeSplits, List.length_append, List.length_take,
      List.length_drop] <;>
    omega

/-- Closed instance of `makeSplits_partition` on the corpus
`[0, 1, 2, 3]` / `[10, 11, 12, 13]` with `Nv = Nt = Ntr = 1`. -/
theorem makeSplits_partition_witness :
    (makeSplits [0, 1, 2, 3] [10, 11, 12, 13] 1 1 1).x_val.length = 2 * 1
    ∧ List.Pairwise List.Disjoint
        [(makeSplits [0, 1, 2, 3] [10, 11, 12, 13] 1 1 1).x_val,
         (makeSplits [0, 1, 2, 3] [10, 11, 12, 13] 1 1 1).x_test,
         (makeSplits [0, 1, 2, 3] [10, 11, 12, 13] 1 1 1).x_train,
         (makeSplits [0, 1, 2, 3] [10, 11, 12, 13] 1 1 1).pool_positives,
         (makeSplits [0, 1, 2, 3] [10, 11, 12, 13] 1 1 1).pool_negatives] :=
  ⟨(makeSplits_partition [0, 1, 2, 3] [10, 11, 12, 13] 1 1 1 (by decide)
      (by decide) (by decide)).1,
   (makeSplits_partition [0, 1, 2, 3] [10, 11, 12, 13] 1 1 1 (by decide)
      (by decide) (by decide)).2.2.2.2.2⟩

/-! ## C2 / C3: checkpoint mechanics -/

theorem ckptStep_saved_isSome {P : Type*} (c : Ckpt P) (e : Epoch P)
    (h : c.saved.isSome) : (ckptStep c e).saved.isSome := by
  unfold ckptStep
  match c with
  | ⟨none, s⟩ => simp
  | ⟨some b, s⟩ =>
    dsimp only
    split <;> simp_all

theorem runFit_saved_isSome {P : Type*} (l : List (Epoch P)) (c : Ckpt P)
    (h : c.saved.isSome) : (runFit c l).saved.isSome := by
  induction l generalizing c with
  | nil => exact h
  | cons e l ih => exact ih (ckptStep c e) (ckptStep_saved_isSome c e h)

theorem runFit_append {P : Type*} (c : Ckpt P) (l₁ l₂ : List (Epoch P)) :
    runFit c (l₁ ++ l₂) = runFit (runFit c l₁) l₂ := by
  unfold runFit
  exact List.foldl_append ckptStep c l₁ l₂

theorem foldl_roundStep_ckpt {P : Type*} (rounds : List (List (Epoch P)))
    (st : ALState P) :
    (rounds.foldl roundStep st).ckpt = runFit st.ckpt rounds.flatten := by
  induction rounds generalizing st with
  | nil => rfl
  | cons r rs ih =>
    simp only [List.foldl_cons, List.flatten_cons, runFit_append]
    exact ih (roundStep st r)

theorem runAL_ckpt {P : Type*} (init : P) (e0 : List (Epoch P))
    (rounds : List (List (Epoch P))) :
    (runAL init e0 rounds).ckpt
      = runFit ⟨none, none⟩ (e0 ++ rounds.flatten) := by
  rw [runFit_append]
  exact foldl_roundStep_ckpt rounds _

theorem foldl_roundStep_model {P : Type*} (rounds : List (List (Epoch P)))
    (hr : rounds ≠ []) (st : ALState P) (h : st.ckpt.saved.isSome) :
    ∃ p, (rounds.foldl roundStep st).ckpt.saved = some p
      ∧ (rounds.foldl roundStep st).model = p := by
  induction rounds generalizing st with
  | nil => exact absurd rfl hr
  | cons r rs ih =>
    have hsome : (runFit st.ckpt r).saved.isSome := runFit_saved_isSome r _ h
    obtain ⟨p, hp⟩ := Option.isSome_iff_exists.mp hsome
    rcases rs.eq_nil_or_concat with hrs | ⟨_, _, hne⟩
    · subst hrs
      exact ⟨p, by simp [roundStep, hp]⟩
    · have hrs' : rs ≠ [] := by
        rw [hne]; exact List.concat_ne_nil _ _
      exact ih hrs' (roundStep st r) (by simpa [roundStep] using hsome)

/-- With a nonempty epoch list the strictly-improving save rule fires
at least once from the empty slot, and the final slot's loss and
parameters come from an epoch achieving the minimum validation loss
over the whole list.  Stated for an arbitrary already-filled starting
slot for the induction. -/
theorem runFit_some_min {P : Type*} (l : List (Epoch P)) (b : ℚ) (p : P) :
    ∃ b' p', runFit (⟨some b, some p⟩ : Ckpt P) l = ⟨some b', some p'⟩
      ∧ b' ≤ b ∧ (∀ e ∈ l, b' ≤ e.val_loss)
      ∧ ((b' = b ∧ p' = p) ∨ ∃ e ∈ l, b' = e.val_loss ∧ p' = e.params) := by
  induction l generalizing b p with
  | nil => exact ⟨b, p, rfl, le_refl b, by simp, Or.inl ⟨rfl, rfl⟩⟩
  | cons e l ih =>
    by_cases himp : e.val_loss < b
    · obtain ⟨b', p', heq, hle, hall, hcase⟩ := ih e.val_loss e.params
      refine ⟨b', p', ?_, le_of_lt (lt_of_le_of_lt hle himp), ?_, ?_⟩
      · simpa [runFit, ckptStep, himp] using heq
      · intro e' he'
        rcases List.mem_cons.mp he' with he' | he'
        · rw [he']; exact hle
        · exact hall e' he'
      · rcases hcase with ⟨hb, hp⟩ | ⟨e'', he'', hb, hp⟩
        · exact Or.inr ⟨e, List.mem_cons_self e l, hb, hp⟩
        · exact Or.inr ⟨e'', List.mem_cons_of_mem e he'', hb, hp⟩
    · obtain ⟨b', p', heq, hle, hall, hcase⟩ := ih b p
      refine ⟨b', p', ?_, hle, ?_, ?_⟩
      · simpa [runFit, ckptStep, himp] using heq
      · intro e' he'
        rcases List.mem_cons.mp he' with he' | he'
        · rw [he']; exact le_trans hle (not_lt.mp himp)
        · exact hall e' he'
      · rcases hcase with ⟨hb, hp⟩ | ⟨e'', he'', hb, hp⟩
        · exact Or.inl ⟨hb, hp⟩
        · exact Or.inr ⟨e'', List.mem_cons_of_mem e he'', hb, hp⟩

theorem runFit_achieves_min {P : Type*} (l : List (Epoch P)) (hl : l ≠ []) :
    ∃ e ∈ l, runFit (⟨none, none⟩ : Ckpt P) l
      = ⟨some e.val_loss, some e.params⟩
      ∧ ∀ e' ∈ l, e.val_loss ≤ e'.val_loss := by
  match l with
  | [] => exact absurd rfl hl
  | e :: l =>
    obtain ⟨b', p', heq, hle, hall, hcase⟩ := runFit_some_min l e.val_loss e.params
    have hstep : runFit (⟨none, none⟩ : Ckpt P) (e :: l)
        = runFit ⟨some e.val_loss, some e.params⟩ l := rfl
    rcases hcase with ⟨hb, hp⟩ | ⟨e'', he'', hb, hp⟩
    · refine ⟨e, List.mem_cons_self e l, by rw [hstep, heq, hb, hp], ?_⟩
      intro e' he'
      rcases List.mem_cons.mp he' with he' | he'
      · rw [he']
      · rw [← hb]; exact hall e' he'
    · refine ⟨e'', List.mem_cons_of_mem e he'', by rw [hstep, heq, hb, hp], ?_⟩
      intro e' he'
      rcases List.mem_cons.mp he' with he' | he'
      · rw [he', ← hb]; exact hle
      · rw [← hb]; exact hall e' he'

/-- Counterexample to "no reload between rounds / loaded back only
once at the end": a two-round run over `P = ℕ`.  The initial fit ends
at parameters `1` (loss `1`); the first round's fit improves to
parameters `2` (loss `1/2`) and then regresses, ending live at
parameters `3` (loss `3/4`).  The state entering the second round's
fit — `runAL` over the first round only, by the `foldl` identity in
the first conjunct — carries parameters `2`, the checkpoint reloaded
at the end of round one, not the parameters `3` the fit left in
memory. -/
theorem reload_between_rounds :
    runAL (0 : ℕ) [⟨1, 1⟩] [[⟨2, 1/2⟩, ⟨3, 3/4⟩], [⟨5, 2⟩]]
      = roundStep (runAL (0 : ℕ) [⟨1, 1⟩] [[⟨2, 1/2⟩, ⟨3, 3/4⟩]]) [⟨5, 2⟩]
    ∧ (runAL (0 : ℕ) [⟨1, 1⟩] [[⟨2, 1/2⟩, ⟨3, 3/4⟩]]).model = 2
    ∧ lastParams 1 [⟨2, 1/2⟩, ⟨3, 3/4⟩] = 3
    ∧ (2 : ℕ) ≠ 3 := by
  refine ⟨rfl, ?_, rfl, by decide⟩
  norm_num [runAL, roundStep, runFit, ckptStep, lastParams]

/-- C2 (amended).  The checkpoint is not reloaded between the initial
fit and the first round — the model entering the loop carries the live
parameters the initial fit left in memory — but the end of *every*
round executes `load_model`, so after each round (equivalently, after
any nonempty prefix of rounds) the live model is exactly the
parameters saved in the checkpoint slot. -/
theorem reload_every_round {P : Type*} (init : P) (e0 : List (Epoch P))
    (rounds : List (List (Epoch P))) (h0 : e0 ≠ []) :
    (runAL init e0 []).model = lastParams init e0
    ∧ (rounds ≠ [] → ∃ p, (runAL init e0 rounds).ckpt.saved = some p
        ∧ (runAL init e0 rounds).model = p) := by
  refine ⟨rfl, fun hr => ?_⟩
  have hsome : (runFit (⟨none, none⟩ : Ckpt P) e0).saved.isSome := by
    obtain ⟨e, _, heq, _⟩ := runFit_achieves_min e0 h0
    rw [heq]
    rfl
  exact foldl_roundStep_model rounds hr
    ⟨lastParams init e0, runFit ⟨none, none⟩ e0⟩ hsome

/-- Closed instance of `reload_every_round` at the run of
`reload_between_rounds`. -/
theorem reload_every_round_witness :
    ∃ p, (runAL (0 : ℕ) [⟨1, 1⟩] [[⟨2, 1/2⟩, ⟨3, 3/4⟩]]).ckpt.saved = some p
      ∧ (runAL (0 : ℕ) [⟨1, 1⟩] [[⟨2, 1/2⟩, ⟨3, 3/4⟩]]).model = p :=
  (reload_every_round (0 : ℕ) [⟨1, 1⟩] [[⟨2, 1/2⟩, ⟨3, 3/4⟩]]
    (by simp)).2 (by simp)

/-- C3.  Checkpoint selection: after a run with at least one loop
iteration, the model used for the final reported test-set evaluation
is the parameter state of an epoch achieving the single best (smallest)
validation loss over all epochs of all fit calls — the initial fit
included — not merely the best of the last round. -/
theorem final_model_is_global_best {P : Type*} (init : P)
    (e0 : List (Epoch P)) (rounds : List (List (Epoch P)))
    (h0 : e0 ≠ []) (hr : rounds ≠ []) :
    ∃ e ∈ e0 ++ rounds.flatten,
      (runAL init e0 rounds).model = e.params
      ∧ ∀ e' ∈ e0 ++ rounds.flatten, e.val_loss ≤ e'.val_loss := by
  have hall : e0 ++ rounds.flatten ≠ [] := by
    intro h
    exact h0 (List.append_eq_nil.mp h).1
  obtain ⟨e, he, heq, hmin⟩ := runFit_achieves_min (e0 ++ rounds.flatten) hall
  have hck := runAL_ckpt init e0 rounds
  have hsome : (runFit (⟨none, none⟩ : Ckpt P) e0).saved.isSome := by
    obtain ⟨e', _, heq', _⟩ := runFit_achieves_min e0 h0
    rw [heq']
    rfl
  obtain ⟨p, hps, hpm⟩ := foldl_roundStep_model rounds hr
    ⟨lastParams init e0, runFit ⟨none, none⟩ e0⟩ hsome
  have hbest : (runAL init e0 rounds).ckpt.saved = some e.params := by
    rw [hck, heq]
  have hsaved : (runAL init e0 rounds).ckpt.saved = some p := hps
  have hmodel : (runAL init e0 rounds).model = p := hpm
  refine ⟨e, he, ?_, hmin⟩
  rw [hmodel]
  exact Option.some_inj.mp (hsaved.symm.trans hbest)

/-- Closed instance of `final_model_is_global_best` at the run of
`reload_between_rounds` (the best epoch is the one with loss `1/2` and
parameters `2`). -/
theorem final_model_is_global_best_witness :
    ∃ e ∈ ([⟨1, 1⟩] ++ ([[⟨2, 1/2⟩, ⟨3, 3/4⟩]] : List (List (Epoch ℕ))).flatten),
      (runAL (0 : ℕ) [⟨1, 1⟩] [[⟨2, 1/2⟩, ⟨3, 3/4⟩]]).model = e.params
      ∧ ∀ e' ∈ ([⟨1, 1⟩]
          ++ ([[⟨2, 1/2⟩, ⟨3, 3/4⟩]] : List (List (Epoch ℕ))).flatten),
          e.val_loss ≤ e'.val_loss :=
  final_model_is_global_best (0 : ℕ) [⟨1, 1⟩] [[⟨2, 1/2⟩, ⟨3, 3/4⟩]]
    (by simp) (by simp)

end ActiveLearning
